import Mathlib

/-!
# Verification of the ino Build Configuration & Dependency Resolution Engine

Shallow embedding of the core of `ino/environment.py` and
`ino/commands/build.py` (Python 2):

* `ArduinoData.parse` / `parse_multikey` — the dotted-key description-file
  parser (`ConfigTree Parser`), including the scalar-to-node promotion
  branch;
* `BoardModels.parse` / `parse_menu` — the board variant expander;
* `Environment.replace_vars` — the recursive `{dotted.path}` placeholder
  substitution engine;
* `Environment.__getitem__` / `__getattr__` / `dump_filepath` /
  `process_args` — the key/value store with attribute fallback and the
  on-disk snapshot path;
* `Build._scan_dependencies` / `Build.scan_dependencies` — the library
  dependency scanner and the bump-to-tail ordering loop.

Python dictionaries are modelled as insertion-ordered association lists
(`List (String × CVal)`); `dict.__setitem__` keeps the position of an
existing key and appends a fresh one, which `setk` reproduces.  Python
exceptions (`ValueError`, `TypeError`, `KeyError`, `IndexError`,
`AttributeError`, the recursion limit) are modelled with `Except PyErr`.
Where CPython iterates a `set` in unspecified hash order the model fixes a
concrete order (noted at each definition); the spec itself calls those
orders implementation-defined.
-/

set_option maxRecDepth 4000

/-! ## Python string primitives -/

/-- The characters of Python 2 `\s` (and of `str.strip`):
space, tab, newline, carriage return, vertical tab, form feed. -/
def pySpaceChar (c : Char) : Bool :=
  c = ' ' || c = '\t' || c = '\n' || c = '\r' || c = '\x0b' || c = '\x0c'

/-- Python `needle in hay` substring containment on strings. -/
def strInAux (needle : List Char) : List Char → Bool
  | [] => needle.isEmpty
  | c :: rest => needle.isPrefixOf (c :: rest) || strInAux needle rest

/-- Python `needle in hay` for `str` operands. -/
def strIn (needle hay : String) : Bool :=
  strInAux needle.data hay.data

/-- Python `s.strip()`: drop leading and trailing whitespace. -/
def pyStrip (s : String) : String :=
  String.mk (((s.data.dropWhile pySpaceChar).reverse.dropWhile pySpaceChar).reverse)

/-- Python `s.split(sep)` for a one-character separator (no maxsplit). -/
def splitOnChar (sep : Char) : List Char → List (List Char)
  | [] => [[]]
  | c :: rest =>
    match splitOnChar sep rest with
    | [] => [[]]
    | g :: gs => if c = sep then [] :: g :: gs else (c :: g) :: gs

/-- Python `s.split(sep, 1)`: split at the first occurrence of `sep`,
`none` when `sep` does not occur (modelling the unpacking failure site). -/
def splitFirst (sep : Char) : List Char → Option (List Char × List Char)
  | [] => none
  | c :: rest =>
    if c = sep then some ([], rest)
    else (splitFirst sep rest).map (fun p => (c :: p.1, p.2))

/-- Model of `multikey = key.split('.')` as a list of `String`s. -/
def splitDots (s : String) : List String :=
  (splitOnChar '.' s.data).map String.mk

/-! ## Python exceptions -/

/-- The Python exceptions the modelled code can raise. -/
inductive PyErr where
  | valueError (msg : String)
  | typeError (msg : String)
  | keyError (key : String)
  | attributeError (msg : String)
  | indexError
  | abortError (msg : String)
  | recursionError
  deriving DecidableEq, Repr

/-! ## ConfigTree values (nested Python dicts of strings) -/

/-- A value in a parsed description tree: either a raw string or a nested
dict, as built by `ArduinoData.parse_multikey`. -/
inductive CVal where
  | str (s : String)
  | node (es : List (String × CVal))

/-- First-match lookup in an association list (Python `d[k]` on our
unique-key dicts). -/
def lookupk (es : List (String × CVal)) (k : String) : Option CVal :=
  match es with
  | [] => none
  | (k', v) :: rest => if k' = k then some v else lookupk rest k

/-- Python `d[k] = v`: update in place keeping the key's position, append
a fresh key at the end. -/
def setk (es : List (String × CVal)) (k : String) (v : CVal) :
    List (String × CVal) :=
  match es with
  | [] => [(k, v)]
  | (k', v') :: rest => if k' = k then (k', v) :: rest else (k', v') :: setk rest k v

/-- Python `del d[k]` (the key is known to be present at every call site
we model; on an absent key the entry list is returned unchanged). -/
def removek (es : List (String × CVal)) (k : String) : List (String × CVal) :=
  match es with
  | [] => []
  | (k', v') :: rest => if k' = k then rest else (k', v') :: removek rest k

/-- Python `d.update(u)`: set every entry of `u`, in order, into `d`. -/
def updateAll (d u : List (String × CVal)) : List (String × CVal) :=
  match u with
  | [] => d
  | (k, v) :: rest => updateAll (setk d k v) rest

/-! ## ArduinoData.parse_multikey (environment.py lines 322-338)

```
def parse_multikey(self, multikey, val, subdict=None):
    subdict = subdict or self
    last = None
    for key in multikey[:-1]:
        if key not in subdict:
            subdict[key] = {}
        last = subdict
        subdict = subdict[key]
    if isinstance(subdict, str):
        name = subdict
        subdict = last[name] = {'name': name}
    self.set_value(subdict, multikey[-1], val)
```

The walk descends through `multikey[:-1]`.  When the walk lands on a
plain string at the last intermediate segment, the promotion branch
fires: the old scalar `name` becomes a fresh node `{'name': name}` stored
in the parent under key `name` (the old *value*, not the original key —
the code writes `last[name]`, not `last[key]`).  When a string is hit
with more than one segment still to walk, Python raises `TypeError`
(either `'str' object does not support item assignment` from
`subdict[key] = {}` or `string indices must be integers` from
`subdict[key]`, depending on the substring test `key not in subdict`).
An empty `multikey` would raise `IndexError` on `multikey[-1]`. -/

def parse_multikey (es : List (String × CVal)) (keys : List String)
    (val : String) : Except PyErr (List (String × CVal)) :=
  match keys with
  | [] => .error .indexError
  | [k] => .ok (setk es k (.str val))
  | k :: k2 :: rest =>
    match lookupk es k with
    | none => do
      let sub ← parse_multikey [] (k2 :: rest) val
      .ok (setk es k (.node sub))
    | some (.node sub) => do
      let sub' ← parse_multikey sub (k2 :: rest) val
      .ok (setk es k (.node sub'))
    | some (.str s) =>
      match rest with
      | [] =>
        .ok (setk es s (.node (setk [("name", .str s)] k2 (.str val))))
      | _ :: _ =>
        if strIn k2 s then
          .error (.typeError "string indices must be integers, not str")
        else
          .error (.typeError "'str' object does not support item assignment")

/-! ## ArduinoData.parse (environment.py lines 308-320)

```
def parse(self, txtfile):
    with open(txtfile) as f:
        for line in f:
            line = line.strip()
            if not line or line.startswith('#'):
                continue
            multikey, val = line.split('=', 1)
            multikey = multikey.split('.')
            self.parse_key(multikey, val)
```

A stripped non-blank, non-`#` line without `=` makes the two-target
unpacking fail with Python 2's fixed-message
`ValueError: need more than 1 value to unpack`; the message mentions
neither the file being parsed nor the offending line. -/

/-- Process one raw line of a description file against the current tree. -/
def parseLine (es : List (String × CVal)) (raw : String) :
    Except PyErr (List (String × CVal)) :=
  let line := pyStrip raw
  if line.data = [] then .ok es
  else if line.data.head? = some '#' then .ok es
  else
    match splitFirst '=' line.data with
    | none => .error (.valueError "need more than 1 value to unpack")
    | some (k, v) => parse_multikey es (splitDots (String.mk k)) (String.mk v)

/-- Fold `parseLine` over the lines of a file, starting from tree `es`. -/
def parseLinesFrom (es : List (String × CVal)) :
    List String → Except PyErr (List (String × CVal))
  | [] => .ok es
  | l :: rest => do
    let es' ← parseLine es l
    parseLinesFrom es' rest

/-- Model of `ArduinoData().parse(txtfile)` on the given file contents. -/
def arduinoParse (lines : List String) : Except PyErr (List (String × CVal)) :=
  parseLinesFrom [] lines

example :
    arduinoParse ["a=X", "a.b=Y"] =
      .ok [("a", .str "X"),
           ("X", .node [("name", .str "X"), ("b", .str "Y")])] := by
  rfl

example :
    arduinoParse ["# c", "", "u.name=Uno", "u.f=8"] =
      .ok [("u", .node [("name", .str "Uno"), ("f", .str "8")])] := by
  rfl

example :
    arduinoParse ["junk"] =
      .error (.valueError "need more than 1 value to unpack") := by
  rfl

/-! ## BoardModels (environment.py lines 345-387)

`BoardModels` keeps a side table `self.cpus : model -> cpu -> dict`.
`parse_key` diverts every line whose first key segment is `menu` into
`parse_menu`; other lines go to `parse_multikey` on the main tree.

```
def parse_menu(self, menukey, val):
    if menukey[0] == 'cpu':
        if len(menukey) == 1:
            return
        model = menukey[1]
        cpu = menukey[2]
        if len(menukey) == 3:
            if model not in self.cpus:
                self.cpus[model] = {}
            self.cpus[model][cpu] = {'name': val}
        else:
            self.parse_multikey(menukey[3:], val, subdict=self.cpus[model][cpu])
```

`menukey[2]` on a two-element key raises `IndexError`; a four-or-more
element key whose `(model, cpu)` pair was never introduced by a
three-element line raises `KeyError`.  Menu lines not under `cpu` are
silently dropped. -/

/-- The `self.cpus` side table: model name to cpu name to entry dict. -/
abbrev CpuTable := List (String × List (String × List (String × CVal)))

/-- Lookup in the cpus side table. -/
def cpusFind (t : CpuTable) (model : String) :
    Option (List (String × List (String × CVal))) :=
  match t with
  | [] => none
  | (k, v) :: rest => if k = model then some v else cpusFind rest model

/-- Model of `self.cpus[model][cpu] = d` with `setdefault`-style creation of the
inner dict (position-preserving like Python dict assignment). -/
def cpusSetInner (cpu : String) (d : List (String × CVal)) :
    List (String × List (String × CVal)) → List (String × List (String × CVal))
  | [] => [(cpu, d)]
  | (c, v) :: rest =>
    if c = cpu then (c, d) :: rest else (c, v) :: cpusSetInner cpu d rest

/-- Model of `self.cpus[model][cpu] = d` at the outer level. -/
def cpusSet (t : CpuTable) (model cpu : String)
    (d : List (String × CVal)) : CpuTable :=
  match t with
  | [] => [(model, [(cpu, d)])]
  | (k, mdl) :: rest =>
    if k = model then
      (k, cpusSetInner cpu d mdl) :: rest
    else
      (k, mdl) :: cpusSet rest model cpu d

/-- Lookup of one cpu dict. -/
def cpusFindCpu (t : CpuTable) (model cpu : String) :
    Option (List (String × CVal)) :=
  match cpusFind t model with
  | none => none
  | some mdl =>
    match mdl.find? (fun p => p.1 = cpu) with
    | none => none
    | some p => some p.2

/-- Model of `BoardModels.parse_menu` acting on the cpus side table. -/
def parse_menu (cpus : CpuTable) (menukey : List String) (val : String) :
    Except PyErr CpuTable :=
  match menukey with
  | [] => .error .indexError
  | "cpu" :: rest =>
    match rest with
    | [] => .ok cpus
    | [_] => .error .indexError
    | [model, cpu] => .ok (cpusSet cpus model cpu [("name", .str val)])
    | model :: cpu :: k1 :: krest =>
      match cpusFind cpus model with
      | none => .error (.keyError model)
      | some mdl =>
        match mdl.find? (fun p => p.1 = cpu) with
        | none => .error (.keyError cpu)
        | some p => do
          let d' ← parse_multikey p.2 (k1 :: krest) val
          .ok (cpusSet cpus model cpu d')
  | _ :: _ => .ok cpus

/-- Model of `BoardModels.parse_key`: divert `menu.*` lines to `parse_menu`. -/
def bmParseKey (es : List (String × CVal)) (cpus : CpuTable)
    (multikey : List String) (val : String) :
    Except PyErr (List (String × CVal) × CpuTable) :=
  match multikey with
  | "menu" :: mrest => do
    let cpus' ← parse_menu cpus mrest val
    .ok (es, cpus')
  | _ => do
    let es' ← parse_multikey es multikey val
    .ok (es', cpus)

/-- One raw line of a boards file against `(tree, cpus)` state. -/
def bmParseLine (es : List (String × CVal)) (cpus : CpuTable) (raw : String) :
    Except PyErr (List (String × CVal) × CpuTable) :=
  let line := pyStrip raw
  if line.data = [] then .ok (es, cpus)
  else if line.data.head? = some '#' then .ok (es, cpus)
  else
    match splitFirst '=' line.data with
    | none => .error (.valueError "need more than 1 value to unpack")
    | some (k, v) => bmParseKey es cpus (splitDots (String.mk k)) (String.mk v)

/-- Fold `bmParseLine` over the file. -/
def bmParseLinesFrom (es : List (String × CVal)) (cpus : CpuTable) :
    List String → Except PyErr (List (String × CVal) × CpuTable)
  | [] => .ok (es, cpus)
  | l :: rest => do
    let p ← bmParseLine es cpus l
    bmParseLinesFrom p.1 p.2 rest

/-! Variant expansion, the post-pass of `BoardModels.parse`
(environment.py lines 350-365):

```
for model in self.cpus:
    for cpu in self.cpus[model]:
        d = self[model + '_' + cpu] = dict(self.cpus[model][cpu])
        d['name'] = self[model]['name'] + ' w/ ' + d['name']
        u = dict(self[model])
        del u['name']
        d.update(u)
    del self[model]
for model in self:
    if 'arch' not in self[model]:
        self[model]['arch'] = arch
```

`d.update(u)` copies every base-board key except `name` into the variant
dict, overwriting variant values on key collisions.  Dict iteration
order (unspecified in Python 2) is modelled by insertion order of the
association lists. -/

/-- Read a string-valued key out of a board entry the way
`self[model]['name']` does, surfacing Python's failure modes:
missing model → `KeyError model`; scalar model entry → `TypeError`
(string indexed with a string); missing key → `KeyError`. -/
def boardStrKey (es : List (String × CVal)) (model key : String) :
    Except PyErr String :=
  match lookupk es model with
  | none => .error (.keyError model)
  | some (.str _) => .error (.typeError "string indices must be integers, not str")
  | some (.node bes) =>
    match lookupk bes key with
    | none => .error (.keyError key)
    | some (.str s) => .ok s
    | some (.node _) => .error (.typeError "cannot concatenate 'str' and 'dict' objects")

/-- Expand one `(model, cpu, variantDict)` triple into the main tree. -/
def expandOneCpu (es : List (String × CVal)) (model cpu : String)
    (dv : List (String × CVal)) : Except PyErr (List (String × CVal)) := do
  let baseName ← boardStrKey es model "name"
  let varName ←
    match lookupk dv "name" with
    | none => .error (.keyError "name")
    | some (.str s) => .ok s
    | some (.node _) => .error (.typeError "cannot concatenate 'str' and 'dict' objects")
  let d1 := setk dv "name" (.str (baseName ++ " w/ " ++ varName))
  let u ←
    match lookupk es model with
    | some (.node bes) => pure (removek bes "name")
    | _ => .error (.keyError model)
  let d2 := updateAll d1 u
  .ok (setk es (model ++ "_" ++ cpu) (.node d2))

/-- The inner `for cpu in self.cpus[model]` loop followed by
`del self[model]`. -/
def expandModel (es : List (String × CVal)) (model : String) :
    List (String × List (String × CVal)) → Except PyErr (List (String × CVal))
  | [] =>
    match lookupk es model with
    | none => .error (.keyError model)
    | some _ => .ok (removek es model)
  | (cpu, dv) :: rest => do
    let es' ← expandOneCpu es model cpu dv
    expandModel es' model rest

/-- The outer `for model in self.cpus` loop. -/
def expandCpus (es : List (String × CVal)) :
    CpuTable → Except PyErr (List (String × CVal))
  | [] => .ok es
  | (model, mdl) :: rest => do
    let es' ← expandModel es model mdl
    expandCpus es' rest

/-- The trailing `arch` default pass.  On a scalar entry Python 2 first
substring-tests `'arch' not in self[model]` and, when the test passes,
fails with `TypeError` on the item assignment. -/
def archPass (arch : String) :
    List (String × CVal) → Except PyErr (List (String × CVal))
  | [] => .ok []
  | (k, .node n) :: rest => do
    let n' := if (lookupk n "arch").isSome then n else setk n "arch" (.str arch)
    let rest' ← archPass arch rest
    .ok ((k, .node n') :: rest')
  | (k, .str s) :: rest =>
    if strIn "arch" s then do
      let rest' ← archPass arch rest
      .ok ((k, .str s) :: rest')
    else
      .error (.typeError "'str' object does not support item assignment")

/-- Model of `BoardModels().parse(txtfile, arch)` on the given file contents,
returning the resulting top-level board tree. -/
def boardModelsParse (lines : List String) (arch : String) :
    Except PyErr (List (String × CVal)) := do
  let p ← bmParseLinesFrom [] [] lines
  let es ← expandCpus p.1 p.2
  archPass arch es

example :
    boardModelsParse
      ["uno.name=Uno", "uno.f_cpu=8000000",
       "menu.cpu.uno.v=V", "menu.cpu.uno.v.f_cpu=16000000"] "avr" =
      .ok [("uno_v", .node
        [("name", .str "Uno w/ V"),
         ("f_cpu", .str "8000000"),
         ("arch", .str "avr")])] := by
  rfl

/-! ## Environment.replace_vars (environment.py lines 216-226)

```
def replace_vars(self, value, **kwargs):
    def replace_var(match):
        multikey = match.group(1).split('.')
        d = kwargs
        for key in multikey:
            if key not in d:
                return '{' + '.'.join(multikey) + '}'
            d = d[key]
        return self.replace_vars(d, **kwargs)
    return re.sub(r'\{([^{}]+)\}', replace_var, value)
```

The pattern `\{([^{}]+)\}` matches a `{`, one or more non-brace
characters, then `}`.  `re.sub` replaces the non-overlapping matches left
to right; replacement text is not rescanned.  The path walk over
`kwargs` tests `key not in d`: on a dict this is key lookup, but once `d`
is a plain string it is Python substring containment, and the subsequent
`d = d[key]` on a string raises `TypeError`.  Since
`'.'.join(s.split('.')) == s`, the unresolved-path branch returns the
original matched text `{content}` verbatim, which is how the model
writes it.  The recursion `self.replace_vars(d, **kwargs)` has no cycle
protection, so the model takes a fuel parameter; exhausted fuel stands
for Python's `RuntimeError: maximum recursion depth exceeded`. -/

/-- Result of walking a dotted path through the `kwargs` mapping. -/
inductive LookupRes where
  | missing
  | tErr
  | found (v : CVal)

/-- The `for key in multikey` walk of `replace_var`. -/
def walkPath : CVal → List String → LookupRes
  | d, [] => .found d
  | .node es, k :: rest =>
    match lookupk es k with
    | none => .missing
    | some v => walkPath v rest
  | .str s, k :: _ =>
    if strIn k s then .tErr else .missing


/-- The matcher state while scanning for `\{([^{}]+)\}`: `none` outside
any candidate match, `some acc` after an opening `{` with the (reversed)
non-brace characters read so far. -/
abbrev TokState := Option (List Char)

/-- The contents of the regex matches of `\{([^{}]+)\}`, left to right —
the placeholders `re.sub` visits.  A `{` restarts the candidate match, a
`}` on a non-empty accumulator emits a match, a `}` on an empty
accumulator aborts the candidate (the pattern needs one or more
non-brace characters). -/
def tokensS : TokState → List Char → List (List Char)
  | _, [] => []
  | none, c :: rest =>
    if c = '{' then tokensS (some []) rest else tokensS none rest
  | some acc, c :: rest =>
    if c = '}' then
      if acc = [] then tokensS none rest
      else acc.reverse :: tokensS none rest
    else if c = '{' then tokensS (some []) rest
    else tokensS (some (c :: acc)) rest

/-- One scanning pass of `re.sub(r'\{([^{}]+)\}', replace_var, value)`,
parameterised by `recur`, the expansion at one smaller recursion depth
(the nested `self.replace_vars(d, **kwargs)` call).  Text outside
matches, candidate matches that never close, and matches whose dotted
path is unresolved are emitted verbatim; a resolved string value is
expanded by `recur` and substituted (the substituted text is not
rescanned, matching `re.sub`). -/
def scanS (vars : List (String × CVal))
    (recur : List Char → Except PyErr (List Char)) :
    TokState → List Char → Except PyErr (List Char)
  | none, [] => .ok []
  | some acc, [] => .ok ('{' :: acc.reverse)
  | none, c :: rest =>
    if c = '{' then scanS vars recur (some []) rest
    else do
      let t ← scanS vars recur none rest
      .ok (c :: t)
  | some acc, c :: rest =>
    if c = '}' then
      if acc = [] then do
        let t ← scanS vars recur none rest
        .ok ('{' :: '}' :: t)
      else
        match walkPath (.node vars) (splitDots (String.mk acc.reverse)) with
        | .missing => do
          let t ← scanS vars recur none rest
          .ok ('{' :: (acc.reverse ++ '}' :: t))
        | .tErr => .error (.typeError "string indices must be integers, not str")
        | .found (.node _) => .error (.typeError "expected string or buffer")
        | .found (.str s) => do
          let r ← recur s.data
          let t ← scanS vars recur none rest
          .ok (r ++ t)
    else if c = '{' then do
      let t ← scanS vars recur (some []) rest
      .ok ('{' :: acc.reverse ++ t)
    else scanS vars recur (some (c :: acc)) rest

/-- Model of `replace_vars` on a character list, with `fuel` bounding the depth of
the `self.replace_vars(d, **kwargs)` recursion (Python has no cycle
protection; exhausted fuel models `RuntimeError: maximum recursion depth
exceeded`, and any terminating Python run is reproduced by every
sufficiently large fuel). -/
def pyExpand (vars : List (String × CVal)) : Nat → List Char → Except PyErr (List Char)
  | 0, _ => .error .recursionError
  | n + 1, l => scanS vars (pyExpand vars n) none l

/-- Model of `Environment.replace_vars(value, **kwargs)`.  A non-string `value`
reaches `re.sub` directly and raises `TypeError` in Python 2. -/
def replace_vars (fuel : Nat) (vars : List (String × CVal)) : CVal → Except PyErr String
  | .node _ => .error (.typeError "expected string or buffer")
  | .str s => do
    let r ← pyExpand vars fuel s.data
    .ok (String.mk r)

example : replace_vars 1 [] (.str "\x7bmissing.path\x7d") = .ok "\x7bmissing.path\x7d" := by rfl

example :
    replace_vars 5 [("a", .str "\x7bb\x7d"), ("b", .str "final")] (.str "\x7ba\x7d") =
      .ok "final" := by rfl

example :
    replace_vars 2 [("a", .str "abc")] (.str "\x7ba.b\x7d") =
      .error (.typeError "string indices must be integers, not str") := by rfl

example : tokensS none "x\x7ba\x7dy\x7bb.c\x7dz\x7b\x7d\x7bw".data = ["a".data, "b.c".data] := by rfl

example :
    replace_vars 3 [("a", .str "A"), ("b", .node [("c", .str "C")])]
      (.str "-\x7ba\x7d-\x7bb.c\x7d-\x7bb.q\x7d-") = .ok "-A-C-\x7bb.q\x7d-" := by rfl

/-! ## Environment (environment.py lines 53-106, 270-290)

`Environment` subclasses `dict`.  `__getitem__` tries the backing dict
first and falls back to `getattr(self, key)` (which finds class
attributes, since no instance attributes are ever set, and whose own
`__getattr__` fallback re-checks the — already missing — dict entry);
when both fail it re-raises the *original* `KeyError`.  Attribute reads
use normal Python lookup — class attributes first — and only call
`__getattr__` (the dict fallback) when that fails.  The model carries
the backing dict and the class attributes explicitly. -/

/-- Generic first-match association-list lookup. -/
def lookupA {α : Type} (es : List (String × α)) (k : String) : Option α :=
  match es with
  | [] => none
  | (k', v) :: rest => if k' = k then some v else lookupA rest k

/-- Generic `d[k] = v` keeping the position of an existing key. -/
def setA {α : Type} (es : List (String × α)) (k : String) (v : α) :
    List (String × α) :=
  match es with
  | [] => [(k, v)]
  | (k', v') :: rest => if k' = k then (k', v) :: rest else (k', v') :: setA rest k v

/-- An `Environment` instance: the backing dict (`items`) plus the class
attributes visible on it (no instance attributes are ever assigned in
the code). -/
structure PyEnv (α : Type) where
  items : List (String × α)
  classAttrs : List (String × α)
  deriving DecidableEq

/-- Model of `Environment.__getitem__`: dict first, then `getattr` (class
attributes); on double failure the original `KeyError` is re-raised. -/
def envGetItem {α : Type} (e : PyEnv α) (k : String) : Except PyErr α :=
  match lookupA e.items k with
  | some v => .ok v
  | none =>
    match lookupA e.classAttrs k with
    | some v => .ok v
    | none => .error (.keyError k)

/-- Attribute access `env.k`: normal lookup (class attributes) first,
then the `__getattr__` fallback to the backing dict, then
`AttributeError`. -/
def envGetAttr {α : Type} (e : PyEnv α) (k : String) : Except PyErr α :=
  match lookupA e.classAttrs k with
  | some v => .ok v
  | none =>
    match lookupA e.items k with
    | some v => .ok v
    | none => .error (.attributeError ("Environment has no attribute '" ++ k ++ "'"))

/-- Model of `env[k] = v`. -/
def envSetItem {α : Type} (e : PyEnv α) (k : String) (v : α) : PyEnv α :=
  { e with items := setA e.items k v }

/-- Model of `Environment.dump_filepath`:
`os.path.join(self.output_dir, 'environment.pickle')` — a property of
`output_dir` alone, used by both `dump()` and `load()`
(`os.path.join` modelled as slash concatenation). -/
def dump_filepath (e : PyEnv String) : Except PyErr String := do
  let od ← envGetAttr e "output_dir"
  .ok (od ++ "/environment.pickle")

/-- Command-line arguments consumed by `Environment.process_args`
(`None` maps to `none`; Python truthiness makes `''` act like `None`). -/
structure PyArgs where
  arduino_dist : Option String
  board_model : Option String
  deriving DecidableEq

/-- Python truthiness on an optional string. -/
def pyTruthy (o : Option String) : Option String :=
  match o with
  | some "" => none
  | x => x

/-- Model of `Environment.process_args(args)` (environment.py lines 270-290).
`validModels` stands for the keys of `self.board_models()` (filesystem
discovery, external to the model) and `md5hex` for
`hashlib.md5(...).hexdigest()` (external).  Stores
`arduino_dist_dir` when given, validates the board model, and sets
`build_dir = os.path.join(output_dir, build_dirname)` where
`build_dirname` is the board model (default board model when absent)
suffixed with the first 8 hash characters when a distribution path was
given. -/
def process_args (e : PyEnv String) (validModels : List String)
    (md5hex : String → String) (args : PyArgs) : Except PyErr (PyEnv String) := do
  let adist := pyTruthy args.arduino_dist
  let bmodel := pyTruthy args.board_model
  let e1 :=
    match adist with
    | some d => envSetItem e "arduino_dist_dir" d
    | none => e
  match bmodel with
  | some b =>
    if b ∈ validModels then pure ()
    else .error (.abortError (b ++ " is not a valid board model"))
  | none => pure ()
  let bdn ←
    match bmodel with
    | some b => pure b
    | none => envGetAttr e1 "default_board_model"
  let bdn2 :=
    match adist with
    | some d => bdn ++ "-" ++ ((md5hex d).take 8)
    | none => bdn
  let od ← envGetAttr e1 "output_dir"
  .ok (envSetItem e1 "build_dir" (od ++ "/" ++ bdn2))

/-- The class attributes of `Environment` that the modelled code reads
(environment.py lines 55-70). -/
def envClassAttrs : List (String × String) :=
  [("output_dir", ".build"), ("src_dir", "src"), ("lib_dir", "lib"),
   ("hex_filename", "firmware.hex"), ("default_board_model", "uno")]

/-- A fresh `Environment()`: empty backing dict, class attributes only. -/
def freshEnv : PyEnv String := ⟨[], envClassAttrs⟩

example :
    (do
      let e ← process_args freshEnv ["uno", "mega"] (fun _ => "0123456789abcdef")
        ⟨some "/opt/arduino", some "mega"⟩
      envGetItem e "build_dir") = .ok ".build/mega-01234567" := by rfl

example :
    (do
      let e ← process_args freshEnv ["uno", "mega"] (fun _ => "0123456789abcdef")
        ⟨some "/opt/arduino", some "mega"⟩
      dump_filepath e) = .ok ".build/environment.pickle" := by rfl

/-! ## Build._scan_dependencies (build.py lines 240-259)

```
regexes = dict((lib, re.compile(r'\s' + lib + re.escape(os.path.sep)))
               for lib in lib_dirs)
used_libs = set()
with open(output_filepath) as f:
    for line in f:
        for lib, regex in regexes.iteritems():
            if regex.search(line) and lib != dir:
                used_libs.add(lib)
```

For each candidate library directory path `lib` the regex matches a
whitespace character (`\s`), then the path text, then the path
separator; `re.search` looks for this anywhere in each line of the
generated dependency listing.  The model treats the library path as
literal text (the code interpolates it unescaped into the regex; the
paths the code builds contain no regex metacharacters beyond `.`, which
would only widen the match).  The result set is modelled as the filtered
candidate list. -/

/-- Model of `os.path.sep` on the POSIX platforms the tool targets. -/
def sepChar : Char := '/'

/-- Model of `regex.search(line)` for the pattern `\s<lib><sep>`: somewhere in
the line, a whitespace character immediately followed by `pat`. -/
def depMatch (pat : List Char) : List Char → Bool
  | [] => false
  | c :: rest => (pySpaceChar c && pat.isPrefixOf rest) || depMatch pat rest

/-- The set of candidate libraries `Build._scan_dependencies(dir, ...)`
reports for a dependency listing with the given lines. -/
def scanUsedLibs (lib_dirs : List String) (dir : String)
    (lines : List String) : List String :=
  lib_dirs.filter (fun lib =>
    decide (lib ≠ dir) &&
    lines.any (fun line => depMatch (lib.data ++ [sepChar]) line.data))

example : scanUsedLibs ["/l/Servo", "/l/SPI"] "/src"
    ["firmware.o: /src/a.cpp \\", " /l/Servo/Servo.h /x/other.h"] = ["/l/Servo"] := by
  rfl

/-- Modelled from the spec's words (claim C5): the library's directory
name "appears as a path segment anywhere in the text of the generated
dependency listing" — the path followed by the separator occurs as a
substring of the listing text. -/
def specSegmentOccurs (lib text : String) : Prop :=
  (lib.data ++ [sepChar]) <:+: text.data

instance (lib text : String) : Decidable (specSegmentOccurs lib text) :=
  List.decidableInfix _ _

/-! ## Build.scan_dependencies (build.py lines 261-298)

```
used_libs = list(self._scan_dependencies(self.e.src_dir, lib_dirs, inc_flags))
scanned_libs = set()
while scanned_libs != set(used_libs):
    for lib in set(used_libs) - scanned_libs:
        dep_libs = self._scan_dependencies(lib, lib_dirs, inc_flags)
        i = 0
        for ulib in used_libs[:]:
            if ulib in dep_libs:
                used_libs.append(used_libs.pop(i))
                dep_libs.remove(ulib)
            else:
                i += 1
        used_libs.extend(dep_libs)
        scanned_libs.add(lib)
```

The inner `for ulib` pass walks a snapshot of `used_libs` while popping
from the live list: entries found in `dep_libs` are moved to the tail
preserving their relative order, the others keep their relative order at
the front, and the dependencies not yet present are appended.  CPython
iterates `set(used_libs) - scanned_libs` in unspecified hash order; the
model processes those libraries in their `used_libs` order (any concrete
order is realisable by suitable directory names).  The dependency
reports are abstracted as a function `deps` from a library to the list
of libraries its scan reports (`_scan_dependencies` output; always a
subset of the candidate `lib_dirs` and never containing the scanned
library itself, but the model does not assume that). -/

/-- The effect on `used_libs` of scanning one library `lib`:
entries of `deps lib` already present move to the tail (keeping their
relative order), the rest keep their order in front, then the newly
discovered dependencies are appended. -/
def processLib {α : Type} [DecidableEq α] (deps : α → List α)
    (used : List α) (lib : α) : List α :=
  let dl := deps lib
  used.filter (fun x => decide (x ∉ dl)) ++ used.filter (fun x => decide (x ∈ dl))
    ++ dl.filter (fun x => decide (x ∉ used))

/-- One pass of the `for lib in set(used_libs) - scanned_libs` loop over
the snapshot `todo`. -/
def runPass {α : Type} [DecidableEq α] (deps : α → List α)
    (used : List α) : List α → List α
  | [] => used
  | l :: todo => runPass deps (processLib deps used l) todo

/-- The `while scanned_libs != set(used_libs)` loop, with enough fuel.
Returns the final `(used_libs, scanned_libs)`. -/
def resolveAux {α : Type} [DecidableEq α] (deps : α → List α) :
    Nat → List α → List α → List α × List α
  | 0, used, scanned => (used, scanned)
  | n + 1, used, scanned =>
    let todo := used.filter (fun x => decide (x ∉ scanned))
    if todo = [] then (used, scanned)
    else resolveAux deps n (runPass deps used todo) (scanned ++ todo)

/-- Model of `Build.scan_dependencies`: the closure loop starting from the
initial project scan `init`, with the fuel that lemma
`resolveAux_fuel_free` shows suffices whenever every library lies in the
finite candidate pool `candidates`. -/
def resolve {α : Type} [DecidableEq α] (deps : α → List α)
    (candidates init : List α) : List α × List α :=
  resolveAux deps (candidates.length + 1) init []

/-- Position of an element in a list (`used_libs.index(x)` flavour):
number of entries strictly before the first occurrence. -/
def idxOf {α : Type} [DecidableEq α] (a : α) : List α → Nat
  | [] => 0
  | b :: t => if b = a then 0 else idxOf a t + 1

example :
    (resolve (fun n => if n = 0 then [1] else if n = 2 then [0] else if n = 3 then [2] else [])
      [0, 1, 2, 3] [0, 3]).1 = [3, 1, 2, 0] := by rfl

/-! ## Resolver lemmas -/

section ResolverLemmas

variable {α : Type} [DecidableEq α]

theorem mem_processLib (deps : α → List α) (u : List α) (l : α) (x : α) :
    x ∈ processLib deps u l ↔ x ∈ u ∨ x ∈ deps l := by
  simp only [processLib, List.mem_append, List.mem_filter, decide_eq_true_eq]
  by_cases hx : x ∈ deps l <;> by_cases hu : x ∈ u <;> simp [hx, hu]

theorem processLib_nodup (deps : α → List α) (u : List α) (l : α)
    (hu : u.Nodup) (hd : (deps l).Nodup) : (processLib deps u l).Nodup := by
  unfold processLib
  apply List.Nodup.append
  · apply List.Nodup.append (hu.filter _) (hu.filter _)
    intro x hx1 hx2
    simp only [List.mem_filter, decide_eq_true_eq] at hx1 hx2
    exact hx1.2 hx2.2
  · exact hd.filter _
  · intro x hx1 hx2
    simp only [List.mem_append, List.mem_filter, decide_eq_true_eq] at hx1 hx2
    exact hx2.2 (hx1.elim And.left And.left)

theorem mem_runPass (deps : α → List α) (u : List α) (todo : List α) (x : α) :
    x ∈ runPass deps u todo ↔ x ∈ u ∨ ∃ l ∈ todo, x ∈ deps l := by
  induction todo generalizing u with
  | nil => simp [runPass]
  | cons l t ih =>
    rw [runPass, ih, mem_processLib]
    constructor
    · rintro ((h | h) | ⟨l', hl', hx⟩)
      · exact Or.inl h
      · exact Or.inr ⟨l, List.mem_cons_self l t, h⟩
      · exact Or.inr ⟨l', List.mem_cons_of_mem l hl', hx⟩
    · rintro (h | ⟨l', hl', hx⟩)
      · exact Or.inl (Or.inl h)
      · rcases List.mem_cons.mp hl' with rfl | hl'
        · exact Or.inl (Or.inr hx)
        · exact Or.inr ⟨l', hl', hx⟩

theorem runPass_nodup (deps : α → List α) (u : List α) (todo : List α)
    (hu : u.Nodup) (hd : ∀ l, (deps l).Nodup) : (runPass deps u todo).Nodup := by
  induction todo generalizing u with
  | nil => exact hu
  | cons l t ih => exact ih _ (processLib_nodup deps u l hu (hd l))

theorem subset_runPass (deps : α → List α) (u : List α) (todo : List α)
    (x : α) (hx : x ∈ u) : x ∈ runPass deps u todo :=
  (mem_runPass deps u todo x).mpr (Or.inl hx)

theorem deps_mem_runPass (deps : α → List α) (u : List α) (todo : List α)
    (l x : α) (hl : l ∈ todo) (hx : x ∈ deps l) : x ∈ runPass deps u todo :=
  (mem_runPass deps u todo x).mpr (Or.inr ⟨l, hl, hx⟩)

/-- The invariant of the `scan_dependencies` closure loop, relating the
working `used` sequence and the `scanned` set to the initial scan `init`
and the candidate pool `candidates`. -/
structure RInv (deps : α → List α) (candidates init used scanned : List α) : Prop where
  usedNodup : used.Nodup
  scNodup : scanned.Nodup
  scSub : ∀ x ∈ scanned, x ∈ used
  depsClosed : ∀ l ∈ scanned, ∀ y ∈ deps l, y ∈ used
  origin : ∀ x ∈ used, x ∈ init ∨ ∃ l ∈ scanned, x ∈ deps l
  usedCand : ∀ x ∈ used, x ∈ candidates
  initSub : ∀ x ∈ init, x ∈ used

omit [DecidableEq α] in
theorem RInv_start (deps : α → List α) (candidates init : List α)
    (h1 : init.Nodup) (h3 : ∀ x ∈ init, x ∈ candidates) :
    RInv deps candidates init init [] :=
  ⟨h1, List.nodup_nil, by simp, by simp, fun x hx => Or.inl hx, h3, fun x hx => hx⟩

theorem RInv_step (deps : α → List α) (candidates init used scanned : List α)
    (hd : ∀ l, (deps l).Nodup) (hdc : ∀ l, ∀ y ∈ deps l, y ∈ candidates)
    (hinv : RInv deps candidates init used scanned) :
    RInv deps candidates init
      (runPass deps used (used.filter (fun x => decide (x ∉ scanned))))
      (scanned ++ used.filter (fun x => decide (x ∉ scanned))) := by
  set todo := used.filter (fun x => decide (x ∉ scanned)) with htodo
  have htodo_used : ∀ x ∈ todo, x ∈ used := by
    intro x hx; exact (List.mem_filter.mp hx).1
  have htodo_nsc : ∀ x ∈ todo, x ∉ scanned := by
    intro x hx
    have := (List.mem_filter.mp hx).2
    simpa using this
  refine ⟨?_, ?_, ?_, ?_, ?_, ?_, ?_⟩
  · exact runPass_nodup deps used todo hinv.usedNodup hd
  · exact List.Nodup.append hinv.scNodup (hinv.usedNodup.filter _)
      (fun x hx1 hx2 => htodo_nsc x hx2 hx1)
  · intro x hx
    rcases List.mem_append.mp hx with h | h
    · exact subset_runPass deps used todo x (hinv.scSub x h)
    · exact subset_runPass deps used todo x (htodo_used x h)
  · intro l hl y hy
    rcases List.mem_append.mp hl with h | h
    · exact subset_runPass deps used todo y (hinv.depsClosed l h y hy)
    · exact deps_mem_runPass deps used todo l y h hy
  · intro x hx
    rcases (mem_runPass deps used todo x).mp hx with h | ⟨l, hl, hx'⟩
    · rcases hinv.origin x h with h' | ⟨l, hl, hx'⟩
      · exact Or.inl h'
      · exact Or.inr ⟨l, List.mem_append.mpr (Or.inl hl), hx'⟩
    · exact Or.inr ⟨l, List.mem_append.mpr (Or.inr hl), hx'⟩
  · intro x hx
    rcases (mem_runPass deps used todo x).mp hx with h | ⟨l, _, hx'⟩
    · exact hinv.usedCand x h
    · exact hdc l x hx'
  · intro x hx
    exact subset_runPass deps used todo x (hinv.initSub x hx)

theorem nodup_subset_length (l m : List α) (h1 : l.Nodup)
    (h2 : ∀ x ∈ l, x ∈ m) : l.length ≤ m.length := by
  calc l.length = l.toFinset.card := (List.toFinset_card_of_nodup h1).symm
    _ ≤ m.toFinset.card := by
        apply Finset.card_le_card
        intro x hx
        exact List.mem_toFinset.mpr (h2 x (List.mem_toFinset.mp hx))
    _ ≤ m.length := List.toFinset_card_le m

theorem resolveAux_spec (deps : α → List α) (candidates init : List α)
    (hd : ∀ l, (deps l).Nodup) (hdc : ∀ l, ∀ y ∈ deps l, y ∈ candidates) :
    ∀ (n : Nat) (used scanned : List α),
      RInv deps candidates init used scanned →
      candidates.length + 1 ≤ n + scanned.length →
      RInv deps candidates init (resolveAux deps n used scanned).1
          (resolveAux deps n used scanned).2 ∧
        ∀ x ∈ (resolveAux deps n used scanned).1,
          x ∈ (resolveAux deps n used scanned).2 := by
  intro n
  induction n with
  | zero =>
    intro used scanned hinv hlen
    exfalso
    have : scanned.length ≤ candidates.length :=
      nodup_subset_length scanned candidates hinv.scNodup
        (fun x hx => hinv.usedCand x (hinv.scSub x hx))
    omega
  | succ n ih =>
    intro used scanned hinv hlen
    by_cases htodo : used.filter (fun x => decide (x ∉ scanned)) = []
    · rw [resolveAux, if_pos htodo]
      refine ⟨hinv, ?_⟩
      intro x hx
      by_contra hns
      have : x ∈ used.filter (fun x => decide (x ∉ scanned)) :=
        List.mem_filter.mpr ⟨hx, by simpa using hns⟩
      rw [htodo] at this
      exact absurd this (List.not_mem_nil x)
    · rw [resolveAux, if_neg htodo]
      apply ih
      · exact RInv_step deps candidates init used scanned hd hdc hinv
      · have hpos : 0 < (used.filter (fun x => decide (x ∉ scanned))).length :=
          List.length_pos.mpr htodo
        simp only [List.length_append]
        omega

theorem resolveAux_fuel_free (deps : α → List α) (candidates init : List α)
    (hd : ∀ l, (deps l).Nodup) (hdc : ∀ l, ∀ y ∈ deps l, y ∈ candidates) :
    ∀ (n m : Nat) (used scanned : List α),
      RInv deps candidates init used scanned →
      candidates.length + 1 ≤ n + scanned.length →
      n ≤ m →
      resolveAux deps m used scanned = resolveAux deps n used scanned := by
  intro n
  induction n with
  | zero =>
    intro m used scanned hinv hlen _
    exfalso
    have : scanned.length ≤ candidates.length :=
      nodup_subset_length scanned candidates hinv.scNodup
        (fun x hx => hinv.usedCand x (hinv.scSub x hx))
    omega
  | succ n ih =>
    intro m used scanned hinv hlen hnm
    match m, hnm with
    | m + 1, hnm =>
      by_cases htodo : used.filter (fun x => decide (x ∉ scanned)) = []
      · rw [resolveAux, if_pos htodo, resolveAux, if_pos htodo]
      · rw [resolveAux, if_neg htodo]
        conv_rhs => rw [resolveAux, if_neg htodo]
        apply ih
        · exact RInv_step deps candidates init used scanned hd hdc hinv
        · have hpos : 0 < (used.filter (fun x => decide (x ∉ scanned))).length :=
            List.length_pos.mpr htodo
          simp only [List.length_append]
          omega
        · omega

end ResolverLemmas

/-! ## Ordering lemmas: the bump-to-tail pass and pairwise order -/

section OrderLemmas

variable {α : Type} [DecidableEq α]

theorem processLib_keeps_pair (deps : α → List α) (u : List α) (l A B : α)
    (hA : A ∉ deps l) (h : List.Sublist [A, B] u) :
    List.Sublist [A, B] (processLib deps u l) := by
  unfold processLib
  by_cases hB : B ∈ deps l
  · have hAu : A ∈ u := h.subset (by simp)
    have hBu : B ∈ u := h.subset (by simp)
    have h1 : List.Sublist [A] (u.filter (fun x => decide (x ∉ deps l))) :=
      List.singleton_sublist.mpr (List.mem_filter.mpr ⟨hAu, by simpa using hA⟩)
    have h2 : List.Sublist [B] (u.filter (fun x => decide (x ∈ deps l))) :=
      List.singleton_sublist.mpr (List.mem_filter.mpr ⟨hBu, by simpa using hB⟩)
    exact (h1.append h2).trans (List.sublist_append_left _ _)
  · have hfilter : List.filter (fun x => decide (x ∉ deps l)) [A, B] = [A, B] := by
      simp [hA, hB]
    have h1 : List.Sublist [A, B] (u.filter (fun x => decide (x ∉ deps l))) := by
      have := h.filter (fun x => decide (x ∉ deps l))
      rwa [hfilter] at this
    exact h1.trans ((List.sublist_append_left _ _).trans (List.sublist_append_left _ _))

theorem processLib_makes_pair (deps : α → List α) (u : List α) (A B : α)
    (hAu : A ∈ u) (hAA : A ∉ deps A) (hB : B ∈ deps A) :
    List.Sublist [A, B] (processLib deps u A) := by
  unfold processLib
  have h1 : List.Sublist [A] (u.filter (fun x => decide (x ∉ deps A))) :=
    List.singleton_sublist.mpr (List.mem_filter.mpr ⟨hAu, by simpa using hAA⟩)
  by_cases hBu : B ∈ u
  · have h2 : List.Sublist [B] (u.filter (fun x => decide (x ∈ deps A))) :=
      List.singleton_sublist.mpr (List.mem_filter.mpr ⟨hBu, by simpa using hB⟩)
    exact (h1.append h2).trans (List.sublist_append_left _ _)
  · have h2 : List.Sublist [B] ((deps A).filter (fun x => decide (x ∉ u))) :=
      List.singleton_sublist.mpr (List.mem_filter.mpr ⟨hB, by simpa using hBu⟩)
    have h1' : List.Sublist [A]
        (u.filter (fun x => decide (x ∉ deps A)) ++ u.filter (fun x => decide (x ∈ deps A))) :=
      h1.trans (List.sublist_append_left _ _)
    exact h1'.append h2

theorem runPass_keeps_pair (deps : α → List α) (u : List α) (todo : List α) (A B : α)
    (hall : ∀ l ∈ todo, A ∉ deps l) (h : List.Sublist [A, B] u) :
    List.Sublist [A, B] (runPass deps u todo) := by
  induction todo generalizing u with
  | nil => exact h
  | cons l t ih =>
    exact ih _ (fun l' hl' => hall l' (List.mem_cons_of_mem l hl'))
      (processLib_keeps_pair deps u l A B (hall l (List.mem_cons_self l t)) h)

theorem runPass_makes_pair (deps : α → List α) (A B : α) (hB : B ∈ deps A) :
    ∀ (todo u : List α), A ∈ todo → A ∈ u → (∀ l ∈ todo, A ∉ deps l) →
    List.Sublist [A, B] (runPass deps u todo) := by
  intro todo
  induction todo with
  | nil => intro u hmem _ _; exact absurd hmem (List.not_mem_nil A)
  | cons l t ih =>
    intro u hmem hAu hall
    by_cases hl : l = A
    · subst hl
      rw [runPass]
      exact runPass_keeps_pair deps _ t l B
        (fun l' hl' => hall l' (List.mem_cons_of_mem l hl'))
        (processLib_makes_pair deps u l B hAu (hall l (List.mem_cons_self l t)) hB)
    · rcases List.mem_cons.mp hmem with h | h
      · exact absurd h.symm hl
      · rw [runPass]
        exact ih _ h ((mem_processLib deps u l A).mpr (Or.inl hAu))
          (fun l' hl' => hall l' (List.mem_cons_of_mem l hl'))

theorem resolveAux_order (deps : α → List α) (candidates init : List α) (A B : α)
    (hd : ∀ l, (deps l).Nodup) (hdc : ∀ l, ∀ y ∈ deps l, y ∈ candidates)
    (hNoIn : ∀ l ∈ candidates, A ∉ deps l) (hB : B ∈ deps A) :
    ∀ (n : Nat) (used scanned : List α),
      RInv deps candidates init used scanned →
      candidates.length + 1 ≤ n + scanned.length →
      (A ∈ scanned → List.Sublist [A, B] used) →
      A ∈ used →
      List.Sublist [A, B] (resolveAux deps n used scanned).1 := by
  intro n
  induction n with
  | zero =>
    intro used scanned hinv hlen _ _
    exfalso
    have : scanned.length ≤ candidates.length :=
      nodup_subset_length scanned candidates hinv.scNodup
        (fun x hx => hinv.usedCand x (hinv.scSub x hx))
    omega
  | succ n ih =>
    intro used scanned hinv hlen hordsc hAu
    have hall : ∀ l ∈ used.filter (fun x => decide (x ∉ scanned)), A ∉ deps l := by
      intro l hl
      exact hNoIn l (hinv.usedCand l (List.mem_filter.mp hl).1)
    by_cases htodo : used.filter (fun x => decide (x ∉ scanned)) = []
    · rw [resolveAux, if_pos htodo]
      apply hordsc
      by_contra hns
      have : A ∈ used.filter (fun x => decide (x ∉ scanned)) :=
        List.mem_filter.mpr ⟨hAu, by simpa using hns⟩
      rw [htodo] at this
      exact absurd this (List.not_mem_nil A)
    · rw [resolveAux, if_neg htodo]
      apply ih
      · exact RInv_step deps candidates init used scanned hd hdc hinv
      · have hpos : 0 < (used.filter (fun x => decide (x ∉ scanned))).length :=
          List.length_pos.mpr htodo
        simp only [List.length_append]
        omega
      · intro hAsc
        rcases List.mem_append.mp hAsc with h | h
        · exact runPass_keeps_pair deps used _ A B hall (hordsc h)
        · exact runPass_makes_pair deps A B hB _ used h hAu hall
      · exact subset_runPass deps used _ A hAu

theorem sublist_pair_idx (x y : α) :
    ∀ (l : List α), List.Sublist [x, y] l → l.Nodup → idxOf x l < idxOf y l := by
  intro l
  induction l with
  | nil => intro h _; cases h
  | cons a t ih =>
    intro h hn
    cases h with
    | cons _ ht =>
      have hx : x ∈ t := ht.subset (by simp)
      have hy : y ∈ t := ht.subset (by simp)
      have hax : ¬ a = x := fun he => (List.nodup_cons.mp hn).1 (he ▸ hx)
      have hay : ¬ a = y := fun he => (List.nodup_cons.mp hn).1 (he ▸ hy)
      rw [idxOf, idxOf, if_neg hax, if_neg hay]
      have := ih ht (List.nodup_cons.mp hn).2
      omega
    | cons₂ _ ht =>
      have hy : y ∈ t := ht.subset (by simp)
      have hxy : ¬ x = y := fun he => (List.nodup_cons.mp hn).1 (he ▸ hy)
      rw [idxOf, idxOf, if_pos rfl, if_neg hxy]
      omega

end OrderLemmas

/-! ## Claims C3 and C4 -/

/-- C4: Dependency closure termination and uniqueness.  For every finite
candidate pool and every per-directory dependency function (cycles of
any length allowed), the round loop of `Build.scan_dependencies`
terminates — the state reached with fuel `candidates.length + 1` is a
fixpoint (every used library is scanned, so the `while` guard is false,
and larger fuel yields the same result) — and in the final `used`
sequence every library found in the initial project scan or ever
reported as a dependency of a scanned library appears exactly once:
`used` is duplicate-free and contains exactly the closure
`init ∪ { deps l | l ∈ used }`. -/
theorem C4_closure_terminates_unique {α : Type} [DecidableEq α]
    (deps : α → List α) (candidates init : List α)
    (h1 : init.Nodup) (h2 : ∀ l, (deps l).Nodup)
    (h3 : ∀ x ∈ init, x ∈ candidates) (h4 : ∀ l, ∀ y ∈ deps l, y ∈ candidates) :
    (resolve deps candidates init).1.Nodup ∧
    (∀ x ∈ (resolve deps candidates init).1, x ∈ (resolve deps candidates init).2) ∧
    (∀ x, x ∈ (resolve deps candidates init).1 ↔
      x ∈ init ∨ ∃ l ∈ (resolve deps candidates init).1, x ∈ deps l) ∧
    (∀ m, candidates.length + 1 ≤ m →
      resolveAux deps m init [] = resolve deps candidates init) := by
  have hstart := RInv_start deps candidates init h1 h3
  have hlen : candidates.length + 1 ≤ (candidates.length + 1) + ([] : List α).length := by
    simp
  obtain ⟨hinv, hfix⟩ := resolveAux_spec deps candidates init h2 h4
    (candidates.length + 1) init [] hstart hlen
  refine ⟨hinv.usedNodup, hfix, ?_, ?_⟩
  · intro x
    constructor
    · intro hx
      rcases hinv.origin x hx with h | ⟨l, hl, hx'⟩
      · exact Or.inl h
      · exact Or.inr ⟨l, hinv.scSub l hl, hx'⟩
    · rintro (h | ⟨l, hl, hx'⟩)
      · exact hinv.initSub x h
      · exact hinv.depsClosed l (hfix l hl) x hx'
  · intro m hm
    exact resolveAux_fuel_free deps candidates init h2 h4
      (candidates.length + 1) m init [] hstart hlen hm

/-- A two-cycle dependency function (`0` and `1` each report the other). -/
def cycDeps : Nat → List Nat :=
  fun n => if n = 0 then [1] else if n = 1 then [0] else []

theorem C4_closure_terminates_unique_witness :
    (resolve cycDeps [0, 1] [0]).1.Nodup ∧
    1 ∈ (resolve cycDeps [0, 1] [0]).2 ∧
    0 ∈ (resolve cycDeps [0, 1] [0]).1 ∧
    1 ∈ (resolve cycDeps [0, 1] [0]).1 ∧
    resolveAux cycDeps 7 [0] [] = resolve cycDeps [0, 1] [0] := by
  have h := C4_closure_terminates_unique cycDeps [0, 1] [0] (by decide)
    (fun l => by
      by_cases h0 : l = 0
      · simp [cycDeps, h0]
      · by_cases h1 : l = 1 <;> simp [cycDeps, h0, h1])
    (by decide)
    (fun l y hy => by
      by_cases h0 : l = 0
      · simp [cycDeps, h0] at hy
        simp [hy]
      · by_cases h1 : l = 1 <;> simp [cycDeps, h0, h1] at hy
        simp [hy])
  refine ⟨h.1, ?_, ?_, ?_, h.2.2.2 7 (by decide)⟩
  · exact h.2.1 1 (by decide)
  · exact (h.2.2.1 0).mpr (Or.inl (by decide))
  · exact (h.2.2.1 1).mpr (Or.inr ⟨0, (h.2.2.1 0).mpr (Or.inl (by decide)), by decide⟩)

/-- C3 (amended): the pairwise order guarantee holds for a library `A`
that appears in the initial project scan and that no candidate's scan
reports as a dependency: then every library `B` reported by `A`'s scan
ends up strictly after `A` in the final `used` sequence.  (Without the
no-incoming-dependency condition the property fails: scanning a later
library that depends on `A` moves the already-scanned `A` to the tail —
see the counterexample.) -/
theorem C3_pairwise_order_amended {α : Type} [DecidableEq α]
    (deps : α → List α) (candidates init : List α) (A B : α)
    (h1 : init.Nodup) (h2 : ∀ l, (deps l).Nodup)
    (h3 : ∀ x ∈ init, x ∈ candidates) (h4 : ∀ l, ∀ y ∈ deps l, y ∈ candidates)
    (hB : B ∈ deps A) (hNoIn : ∀ l ∈ candidates, A ∉ deps l) (hA : A ∈ init) :
    idxOf A (resolve deps candidates init).1 < idxOf B (resolve deps candidates init).1 := by
  have hstart := RInv_start deps candidates init h1 h3
  have hlen : candidates.length + 1 ≤ (candidates.length + 1) + ([] : List α).length := by
    simp
  have hsub := resolveAux_order deps candidates init A B h2 h4 hNoIn hB
    (candidates.length + 1) init [] hstart hlen
    (fun h => absurd h (List.not_mem_nil A)) hA
  have hnodup := (resolveAux_spec deps candidates init h2 h4
    (candidates.length + 1) init [] hstart hlen).1.usedNodup
  exact sublist_pair_idx A B _ hsub hnodup

/-- A dependency function with a single edge `0 → 1`. -/
def okDeps : Nat → List Nat :=
  fun n => if n = 0 then [1] else []

theorem C3_pairwise_order_amended_witness :
    idxOf 0 (resolve okDeps [0, 1] [0]).1 < idxOf 1 (resolve okDeps [0, 1] [0]).1 :=
  C3_pairwise_order_amended okDeps [0, 1] [0] 0 1 (by decide)
    (fun l => by by_cases h : l = 0 <;> simp [okDeps, h])
    (by decide)
    (fun l y hy => by
      by_cases h : l = 0 <;> simp [okDeps, h] at hy
      simp [hy])
    (by decide) (by decide) (by decide)

/-- The acyclic dependency graph `3 → 2 → 0 → 1` used to refute claim
C3 as stated. -/
def ceDeps : Nat → List Nat :=
  fun n => if n = 0 then [1] else if n = 2 then [0] else if n = 3 then [2] else []

/-- C3 counterexample: with candidates `[0,1,2,3]`, initial project scan
`[0,3]` and the acyclic graph `ceDeps` (topologically ordered by
`[3,2,0,1]`), library `0` reports `1`, library `1` reports nothing, yet
the final sequence is `[3,1,2,0]`: the index of `1` is *not* greater
than the index of `0`.  (Scanning `2` after `0` was already scanned
moves `0` to the tail, behind `1`.) -/
theorem C3_counterexample :
    (1 ∈ ceDeps 0) ∧ (0 ∉ ceDeps 1) ∧
    (∀ a ∈ [0, 1, 2, 3], ∀ b ∈ ceDeps a,
      idxOf a [3, 2, 0, 1] < idxOf b [3, 2, 0, 1]) ∧
    0 ∈ (resolve ceDeps [0, 1, 2, 3] [0, 3]).1 ∧
    1 ∈ (resolve ceDeps [0, 1, 2, 3] [0, 3]).1 ∧
    ¬ idxOf 0 (resolve ceDeps [0, 1, 2, 3] [0, 3]).1 <
        idxOf 1 (resolve ceDeps [0, 1, 2, 3] [0, 3]).1 := by
  decide

/-! ## Claim C5 -/

theorem depMatch_iff (pat : List Char) :
    ∀ (l : List Char), depMatch pat l = true ↔
      ∃ pre c post, l = pre ++ c :: (pat ++ post) ∧ pySpaceChar c = true := by
  intro l
  induction l with
  | nil =>
    simp only [depMatch, Bool.false_eq_true, false_iff]
    rintro ⟨pre, c, post, h, -⟩
    exact absurd h (by simp)
  | cons a rest ih =>
    rw [depMatch, Bool.or_eq_true, Bool.and_eq_true, ih]
    constructor
    · rintro (⟨hsp, hpre⟩ | ⟨pre, c, post, hdec, hsp⟩)
      · obtain ⟨t, ht⟩ := List.isPrefixOf_iff_prefix.mp hpre
        exact ⟨[], a, t, by rw [← ht]; rfl, hsp⟩
      · exact ⟨a :: pre, c, post, by rw [hdec]; rfl, hsp⟩
    · rintro ⟨pre, c, post, hdec, hsp⟩
      match pre, hdec with
      | [], hdec =>
        simp only [List.nil_append, List.cons.injEq] at hdec
        obtain ⟨rfl, hrest⟩ := hdec
        exact Or.inl ⟨hsp, List.isPrefixOf_iff_prefix.mpr ⟨post, hrest.symm⟩⟩
      | d :: pre', hdec =>
        simp only [List.cons_append, List.cons.injEq] at hdec
        obtain ⟨rfl, hrest⟩ := hdec
        exact Or.inr ⟨pre', c, post, hrest, hsp⟩

/-- C5 (amended): a candidate library is reported as used by the scan of
`dir` iff it differs from `dir` and some *line* of the dependency
listing contains a whitespace character immediately followed by the
library's directory path immediately followed by the path separator.
(The claim's "appears as a path segment anywhere in the text" is wrong
on two counts: the occurrence must be immediately preceded by a
whitespace character, and it must lie within a single line.) -/
theorem C5_usage_match_amended (lib_dirs : List String) (dir lib : String)
    (lines : List String) :
    lib ∈ scanUsedLibs lib_dirs dir lines ↔
      lib ∈ lib_dirs ∧ lib ≠ dir ∧
      ∃ line ∈ lines, ∃ pre c post,
        line.data = pre ++ c :: (lib.data ++ sepChar :: post) ∧
        pySpaceChar c = true := by
  unfold scanUsedLibs
  rw [List.mem_filter]
  simp only [Bool.and_eq_true, decide_eq_true_eq, List.any_eq_true]
  constructor
  · rintro ⟨hmem, hne, line, hline, hm⟩
    obtain ⟨pre, c, post, hdec, hsp⟩ := (depMatch_iff _ _).mp hm
    refine ⟨hmem, hne, line, hline, pre, c, post, ?_, hsp⟩
    rw [hdec]
    simp
  · rintro ⟨hmem, hne, line, hline, pre, c, post, hdec, hsp⟩
    refine ⟨hmem, hne, line, hline, (depMatch_iff _ _).mpr ⟨pre, c, post, ?_, hsp⟩⟩
    rw [hdec]
    simp

/-- C5 counterexample: the library path `L` occurs as a path segment in
the listing text `L/x.h:` (it is followed by the separator), and `L` is
a candidate distinct from the scanned directory `D`, yet the scan does
not report it — the occurrence is at the start of the line, with no
preceding whitespace character. -/
theorem C5_counterexample :
    specSegmentOccurs "L" "L/x.h:" ∧ ("L" : String) ≠ "D" ∧
    "L" ∈ ["L"] ∧ "L" ∉ scanUsedLibs ["L"] "D" ["L/x.h:"] := by
  refine ⟨?_, by decide, by decide, by decide⟩
  exact ⟨[], "x.h:".data, by decide⟩

/-! ## Claim C6 -/

theorem splitFirst_eq_none (sep : Char) :
    ∀ (l : List Char), sep ∉ l → splitFirst sep l = none := by
  intro l
  induction l with
  | nil => intro _; rfl
  | cons c rest ih =>
    intro h
    have hcs : ¬ c = sep := fun he => h (by rw [← he]; exact List.mem_cons_self c rest)
    rw [splitFirst, if_neg hcs, ih (fun hm => h (List.mem_cons_of_mem c hm))]
    rfl

/-- C6 (amended): a description file containing a non-blank, non-comment
line without `=` makes parsing fail fatally — `parse` surfaces an
exception and no tree is returned.  (The error does *not* name the
offending file or the offending line: it is the fixed-message
`ValueError` of Python 2 tuple unpacking — see the counterexample.) -/
theorem C6_parse_error_amended :
    ∀ (lines : List String) (es : List (String × CVal)),
      (∃ l ∈ lines, (pyStrip l).data ≠ [] ∧
        (pyStrip l).data.head? ≠ some '#' ∧ '=' ∉ (pyStrip l).data) →
      ∃ e, parseLinesFrom es lines = .error e := by
  intro lines
  induction lines with
  | nil =>
    intro es h
    obtain ⟨l, hl, -⟩ := h
    exact absurd hl (List.not_mem_nil l)
  | cons l rest ih =>
    intro es h
    obtain ⟨l', hl', hne, hhash, heq⟩ := h
    rcases List.mem_cons.mp hl' with rfl | hl'
    · have hbad : parseLine es l' = .error (.valueError "need more than 1 value to unpack") := by
        unfold parseLine
        rw [if_neg hne, if_neg hhash, splitFirst_eq_none '=' _ heq]
      rw [parseLinesFrom, hbad]
      exact ⟨.valueError "need more than 1 value to unpack", rfl⟩
    · rcases hp : parseLine es l with e | es'
      · rw [parseLinesFrom, hp]
        exact ⟨e, rfl⟩
      · obtain ⟨e, he⟩ := ih es' ⟨l', hl', hne, hhash, heq⟩
        rw [parseLinesFrom, hp]
        exact ⟨e, he⟩

theorem C6_parse_error_amended_witness :
    ∃ e, parseLinesFrom [] ["garbage"] = .error e :=
  C6_parse_error_amended ["garbage"] []
    ⟨"garbage", by decide, by decide, by decide, by decide⟩

/-- C6 counterexample: the error raised on a malformed line is the
fixed-message `ValueError` of two-target tuple unpacking.  It is
identical for entirely different files and different offending lines,
and its message does not contain the offending content — so it cannot
name the offending file or line, contrary to the claim. -/
theorem C6_counterexample :
    arduinoParse ["garbage"] =
      .error (.valueError "need more than 1 value to unpack") ∧
    arduinoParse ["x.y", "other=1"] =
      .error (.valueError "need more than 1 value to unpack") ∧
    strIn "garbage" "need more than 1 value to unpack" = false := by
  exact ⟨rfl, rfl, rfl⟩

/-! ## Claims C7 and C8: substitution lemmas -/

/-- The literal text a scanner state stands for: nothing, or the pending
`{` plus the accumulated characters. -/
def stLit : TokState → List Char
  | none => []
  | some acc => '{' :: acc.reverse

/-- States reachable by the scanner: the accumulator holds no braces. -/
def stOK : TokState → Prop
  | none => True
  | some acc => ∀ a ∈ acc, ¬ a = '{' ∧ ¬ a = '}'

theorem stOK_nil : stOK (some []) :=
  fun a ha => absurd ha (List.not_mem_nil a)

theorem scanS_missing_general (vars : List (String × CVal))
    (recur : List Char → Except PyErr (List Char)) :
    ∀ (st : TokState) (l : List Char),
      (∀ tok ∈ tokensS st l,
        walkPath (.node vars) (splitDots (String.mk tok)) = .missing) →
      scanS vars recur st l = .ok (stLit st ++ l) := by
  intro st l
  induction st, l using tokensS.induct with
  | case1 st =>
    intro _
    match st with
    | none => rfl
    | some acc => simp [scanS, stLit]
  | case2 rest ih =>
    intro htok
    exact ih (fun tok htk => htok tok htk)
  | case3 c rest hc ih =>
    intro htok
    have h2 := fun tok htk => htok tok (by simpa [tokensS, hc] using htk)
    have hred : scanS vars recur none (c :: rest) =
        (scanS vars recur none rest >>= fun t => Except.ok (c :: t)) := by
      simp only [scanS, if_neg hc]
    rw [hred, ih h2]
    rfl
  | case4 rest ih =>
    intro htok
    have h2 := fun tok htk => htok tok htk
    show (scanS vars recur none rest >>= fun t => Except.ok ('{' :: '}' :: t)) = _
    rw [ih h2]
    rfl
  | case5 acc rest hacc ih =>
    intro htok
    have heq : tokensS (some acc) ('}' :: rest) = acc.reverse :: tokensS none rest := by
      simp [tokensS, hacc]
    have hmiss : walkPath (.node vars) (splitDots (String.mk acc.reverse)) = .missing :=
      htok acc.reverse (by rw [heq]; exact List.mem_cons_self _ _)
    have h2 := fun tok htk => htok tok (by rw [heq]; exact List.mem_cons_of_mem _ htk)
    have hred : scanS vars recur (some acc) ('}' :: rest) =
        (scanS vars recur none rest >>= fun t =>
          Except.ok ('{' :: (acc.reverse ++ '}' :: t))) := by
      simp only [scanS, if_neg hacc, hmiss, if_true]
    rw [hred, ih h2]
    rfl
  | case6 acc rest _ ih =>
    intro htok
    have h2 := fun tok htk => htok tok htk
    show (scanS vars recur (some []) rest >>= fun t => Except.ok ('{' :: acc.reverse ++ t)) = _
    rw [ih h2]
    rfl
  | case7 acc c rest hc1 hc2 ih =>
    intro htok
    have h2 := fun tok htk => htok tok (by simpa [tokensS, hc1, hc2] using htk)
    have hred : scanS vars recur (some acc) (c :: rest) =
        scanS vars recur (some (c :: acc)) rest := by
      simp only [scanS, if_neg hc1, if_neg hc2]
    rw [hred, ih h2]
    simp [stLit]

/-- A non-empty token list implies the text (with its pending prefix)
contains a `\{([^{}]+)\}` match, written as an explicit decomposition. -/
theorem tokensS_ne_decomp :
    ∀ (st : TokState) (l : List Char), stOK st → tokensS st l ≠ [] →
      ∃ pre mid post, stLit st ++ l = pre ++ '{' :: (mid ++ '}' :: post) ∧
        mid ≠ [] ∧ ∀ x ∈ mid, ¬ x = '{' ∧ ¬ x = '}' := by
  intro st l
  induction st, l using tokensS.induct with
  | case1 st =>
    intro _ hne
    simp [tokensS] at hne
  | case2 rest ih =>
    intro _ hne
    obtain ⟨pre, mid, post, hdec, hm, hnb⟩ := ih stOK_nil hne
    refine ⟨pre, mid, post, ?_, hm, hnb⟩
    simp only [stLit, List.reverse_nil, List.nil_append] at hdec ⊢
    exact hdec
  | case3 c rest hc ih =>
    intro _ hne
    obtain ⟨pre, mid, post, hdec, hm, hnb⟩ :=
      ih trivial (by simpa [tokensS, hc] using hne)
    refine ⟨c :: pre, mid, post, ?_, hm, hnb⟩
    simp only [stLit, List.nil_append] at hdec ⊢
    rw [hdec]
    rfl
  | case4 rest ih =>
    intro _ hne
    obtain ⟨pre, mid, post, hdec, hm, hnb⟩ := ih trivial hne
    refine ⟨'{' :: '}' :: pre, mid, post, ?_, hm, hnb⟩
    simp only [stLit, List.reverse_nil, List.nil_append] at hdec ⊢
    rw [hdec]
    rfl
  | case5 acc rest hacc ih =>
    intro hok _
    refine ⟨[], acc.reverse, rest, by simp [stLit], by simpa using hacc, ?_⟩
    intro x hx
    exact hok x (List.mem_reverse.mp hx)
  | case6 acc rest _ ih =>
    intro hok hne
    obtain ⟨pre, mid, post, hdec, hm, hnb⟩ := ih stOK_nil hne
    refine ⟨'{' :: acc.reverse ++ pre, mid, post, ?_, hm, hnb⟩
    have hdec' : ('{' :: rest : List Char) = pre ++ '{' :: (mid ++ '}' :: post) := by
      simpa using hdec
    simp only [stLit]
    rw [hdec']
    simp [List.append_assoc]
  | case7 acc c rest hc1 hc2 ih =>
    intro hok hne
    have hok' : stOK (some (c :: acc)) := by
      intro a ha
      rcases List.mem_cons.mp ha with rfl | ha
      · exact ⟨hc2, hc1⟩
      · exact hok a ha
    obtain ⟨pre, mid, post, hdec, hm, hnb⟩ :=
      ih hok' (by simpa [tokensS, hc1, hc2] using hne)
    refine ⟨pre, mid, post, ?_, hm, hnb⟩
    simp only [stLit, List.reverse_cons] at hdec
    simpa [stLit] using hdec

/-- Helper: once inside a candidate match whose remaining input starts
with non-brace characters `mid` and then `}`, the scanner emits a token
(provided the accumulator or `mid` is non-empty). -/
theorem tokensTok_emits :
    ∀ (mid : List Char) (acc : List Char) (post : List Char),
      (∀ x ∈ mid, ¬ x = '{' ∧ ¬ x = '}') → (acc ≠ [] ∨ mid ≠ []) →
      tokensS (some acc) (mid ++ '}' :: post) ≠ [] := by
  intro mid
  induction mid with
  | nil =>
    intro acc post _ hne
    have hacc : acc ≠ [] := by
      rcases hne with h | h
      · exact h
      · exact absurd rfl h
    simp [tokensS, hacc]
  | cons c mid' ih =>
    intro acc post hnb hne
    have hc := hnb c (List.mem_cons_self c mid')
    show tokensS (some acc) (c :: (mid' ++ '}' :: post)) ≠ []
    have hred : tokensS (some acc) (c :: (mid' ++ '}' :: post)) =
        tokensS (some (c :: acc)) (mid' ++ '}' :: post) := by
      simp only [tokensS, if_neg hc.2, if_neg hc.1]
    rw [hred]
    exact ih (c :: acc) post (fun x hx => hnb x (List.mem_cons_of_mem c hx))
      (Or.inl (by simp))

/-- A `\{([^{}]+)\}` match in the input guarantees the scanner emits at
least one token, from any state. -/
theorem decomp_tokensS_ne :
    ∀ (pre mid post : List Char), mid ≠ [] → (∀ x ∈ mid, ¬ x = '{' ∧ ¬ x = '}') →
      ∀ (st : TokState), tokensS st (pre ++ '{' :: (mid ++ '}' :: post)) ≠ [] := by
  intro pre
  induction pre with
  | nil =>
    intro mid post hm hnb st
    match st with
    | none =>
      show tokensS (some []) (mid ++ '}' :: post) ≠ []
      exact tokensTok_emits mid [] post hnb (Or.inr hm)
    | some acc =>
      show tokensS (some []) (mid ++ '}' :: post) ≠ []
      exact tokensTok_emits mid [] post hnb (Or.inr hm)
  | cons c pre' ih =>
    intro mid post hm hnb st
    match st with
    | none =>
      by_cases hc : c = '{'
      · subst hc
        exact ih mid post hm hnb (some [])
      · have hred : tokensS none (c :: (pre' ++ '{' :: (mid ++ '}' :: post))) =
            tokensS none (pre' ++ '{' :: (mid ++ '}' :: post)) := by
          simp only [tokensS, if_neg hc]
        rw [List.cons_append, hred]
        exact ih mid post hm hnb none
    | some acc =>
      by_cases hc : c = '}'
      · subst hc
        by_cases hacc : acc = []
        · subst hacc
          exact ih mid post hm hnb none
        · have hred : tokensS (some acc) ('}' :: (pre' ++ '{' :: (mid ++ '}' :: post))) =
              acc.reverse :: tokensS none (pre' ++ '{' :: (mid ++ '}' :: post)) := by
            simp [tokensS, hacc]
          rw [List.cons_append, hred]
          exact List.cons_ne_nil _ _
      · by_cases hc2 : c = '{'
        · subst hc2
          exact ih mid post hm hnb (some [])
        · have hred : tokensS (some acc) (c :: (pre' ++ '{' :: (mid ++ '}' :: post))) =
              tokensS (some (c :: acc)) (pre' ++ '{' :: (mid ++ '}' :: post)) := by
            simp only [tokensS, if_neg hc, if_neg hc2]
          rw [List.cons_append, hred]
          exact ih mid post hm hnb (some (c :: acc))

/-- C7 (amended): a placeholder whose dotted path fails on a *missing
key* — absent from a dict level, or not a substring at a string level,
which is what `walkPath = .missing` captures — is left verbatim and no
error is raised; in particular `expand("\x7bmissing.path\x7d", {})` returns
`"\x7bmissing.path\x7d"` at every recursion budget.  (A path that reaches a
string level whose text *contains* the next key raises `TypeError`
instead — see the counterexample; that is the one correction to the
claim.) -/
theorem C7_unresolved_verbatim_amended :
    (∀ n : Nat, replace_vars (n + 1) [] (.str "\x7bmissing.path\x7d") = .ok "\x7bmissing.path\x7d") ∧
    (∀ (vars : List (String × CVal)) (n : Nat) (s : String),
      (∀ tok ∈ tokensS none s.data,
        walkPath (.node vars) (splitDots (String.mk tok)) = .missing) →
      replace_vars (n + 1) vars (.str s) = .ok s) := by
  constructor
  · intro n
    rfl
  · intro vars n s htok
    have h := scanS_missing_general vars (pyExpand vars n) none s.data htok
    show (pyExpand vars (n + 1) s.data >>= fun r => Except.ok (String.mk r)) = Except.ok s
    rw [show pyExpand vars (n + 1) s.data = scanS vars (pyExpand vars n) none s.data from rfl, h]
    rfl

theorem C7_unresolved_verbatim_amended_witness :
    replace_vars 1 [("q", .str "v")] (.str "x\x7bq.r.t\x7dy") = .ok "x\x7bq.r.t\x7dy" :=
  C7_unresolved_verbatim_amended.2 [("q", .str "v")] 0 "x\x7bq.r.t\x7dy"
    (by
      intro tok htk
      rw [show tokensS none "x\x7bq.r.t\x7dy".data = ["q.r.t".data] from rfl] at htk
      rw [List.mem_singleton.mp htk]
      rfl)

/-- C7 counterexample: with `vars = {a: "abc"}` the path `a.b` does not
fully resolve, yet `expand("\x7ba.b\x7d", vars)` is not left verbatim — it
raises `TypeError`: at the string level Python evaluates
`'b' not in 'abc'` (substring test, false) and then `'abc'['b']`.
The recursion budget is irrelevant: the failing walk happens before any
nested expansion. -/
theorem C7_counterexample :
    replace_vars 1 [("a", .str "abc")] (.str "\x7ba.b\x7d") =
      .error (.typeError "string indices must be integers, not str") := by
  rfl

/-- C8: multi-hop substitution.  With `vars = {a: "\x7bb\x7d", b: "final"}`,
`expand("\x7ba\x7d", vars) = "final"` at every sufficient recursion budget —
the resolved value is itself recursively expanded.  And expansion is the
identity on any string containing no `\{([^{}]+)\}` token. -/
theorem C8_multi_hop :
    (∀ n : Nat, replace_vars (n + 3) [("a", .str "\x7bb\x7d"), ("b", .str "final")]
      (.str "\x7ba\x7d") = .ok "final") ∧
    (∀ (vars : List (String × CVal)) (n : Nat) (s : String),
      (¬ ∃ pre mid post, s.data = pre ++ '{' :: (mid ++ '}' :: post) ∧
        mid ≠ [] ∧ ∀ x ∈ mid, ¬ x = '{' ∧ ¬ x = '}') →
      replace_vars (n + 1) vars (.str s) = .ok s) := by
  constructor
  · intro n
    rfl
  · intro vars n s hno
    have htoks : tokensS none s.data = [] := by
      by_contra hne
      obtain ⟨pre, mid, post, hdec, hm, hnb⟩ := tokensS_ne_decomp none s.data trivial hne
      exact hno ⟨pre, mid, post, by simpa [stLit] using hdec, hm, hnb⟩
    have h := scanS_missing_general vars (pyExpand vars n) none s.data
      (by rw [htoks]; intro tok htk; exact absurd htk (List.not_mem_nil tok))
    show (pyExpand vars (n + 1) s.data >>= fun r => Except.ok (String.mk r)) = Except.ok s
    rw [show pyExpand vars (n + 1) s.data = scanS vars (pyExpand vars n) none s.data from rfl, h]
    rfl

theorem C8_multi_hop_witness :
    replace_vars 1 [("a", .str "\x7bb\x7d")] (.str "no placeholders here") =
      .ok "no placeholders here" :=
  C8_multi_hop.2 [("a", .str "\x7bb\x7d")] 0 "no placeholders here"
    (by
      rintro ⟨pre, mid, post, hdec, hm, hnb⟩
      have h0 : tokensS none "no placeholders here".data = [] := rfl
      rw [hdec] at h0
      exact decomp_tokensS_ne pre mid post hm hnb none h0)

/-! ## Claims C1 and C2: evaluation at the failing inputs -/

/-- C1: evaluating the parser at the promotion input `a=X`, `a.b=Y`.
The promoted node `{name: "X", b: "Y"}` is stored under key `"X"` (the
old *value* — `parse_multikey` writes `last[name]`, with `name` the old
scalar, instead of `last[key]`), while the entry under the original key
`"a"` remains the plain scalar `"X"`: the tree does *not* satisfy
`a.name == X` and `a.b == Y`. -/
theorem C1_promotion_eval :
    arduinoParse ["a=X", "a.b=Y"] =
      .ok [("a", .str "X"),
           ("X", .node [("name", .str "X"), ("b", .str "Y")])] ∧
    lookupk [("a", CVal.str "X"),
             ("X", .node [("name", .str "X"), ("b", .str "Y")])] "a" =
      some (.str "X") := by
  exact ⟨rfl, rfl⟩

/-- C2: evaluating the board parser at a base board `uno` with
`f_cpu=8000000` and a variant `v` overriding `f_cpu=16000000` in the
menu.  `d.update(u)` (build of the expanded entry) lets the *base*
value overwrite the variant value: the synthesized `uno_v` entry carries
`f_cpu = 8000000`, not the menu's `16000000`.  (Name synthesis,
inheritance of remaining keys, removal of the base entry, and the
`arch` default all behave as claimed.) -/
theorem C2_variant_precedence_eval :
    boardModelsParse
      ["uno.name=Uno", "uno.f_cpu=8000000",
       "menu.cpu.uno.v=V", "menu.cpu.uno.v.f_cpu=16000000"] "avr" =
      .ok [("uno_v", .node
        [("name", .str "Uno w/ V"),
         ("f_cpu", .str "8000000"),
         ("arch", .str "avr")])] := by
  rfl

/-! ## Claim C10 -/

/-- C10 (amended): subscript access returns the stored dict entry, and
attribute access returns it only when no same-named class attribute
exists — a class attribute *shadows* the dict entry for attribute access
(the converse of the claim's shadowing direction, refuted separately);
when the key is absent from both, subscript access re-raises the
original `KeyError` and attribute access raises `AttributeError`. -/
theorem C10_dual_access_amended {α : Type} (e : PyEnv α) (k : String) :
    (∀ v, lookupA e.items k = some v → envGetItem e k = .ok v) ∧
    (∀ v, lookupA e.items k = some v → lookupA e.classAttrs k = none →
      envGetAttr e k = .ok v) ∧
    (∀ w, lookupA e.classAttrs k = some w → envGetAttr e k = .ok w) ∧
    (lookupA e.items k = none → lookupA e.classAttrs k = none →
      envGetItem e k = .error (.keyError k) ∧
      envGetAttr e k =
        .error (.attributeError ("Environment has no attribute '" ++ k ++ "'"))) := by
  refine ⟨?_, ?_, ?_, ?_⟩
  · intro v hv
    unfold envGetItem
    rw [hv]
  · intro v hv hc
    unfold envGetAttr
    rw [hc, hv]
  · intro w hw
    unfold envGetAttr
    rw [hw]
  · intro hi hc
    constructor
    · unfold envGetItem
      rw [hi, hc]
    · unfold envGetAttr
      rw [hc, hi]

theorem C10_dual_access_amended_witness :
    envGetItem (⟨[("x", 1)], [("y", 2)]⟩ : PyEnv Nat) "x" = .ok 1 ∧
    envGetAttr (⟨[("x", 1)], [("y", 2)]⟩ : PyEnv Nat) "x" = .ok 1 ∧
    envGetAttr (⟨[("x", 1)], [("y", 2)]⟩ : PyEnv Nat) "y" = .ok 2 ∧
    envGetItem (⟨[("x", 1)], [("y", 2)]⟩ : PyEnv Nat) "z" = .error (.keyError "z") :=
  ⟨(C10_dual_access_amended ⟨[("x", 1)], [("y", 2)]⟩ "x").1 1 rfl,
   (C10_dual_access_amended ⟨[("x", 1)], [("y", 2)]⟩ "x").2.1 1 rfl rfl,
   (C10_dual_access_amended ⟨[("x", 1)], [("y", 2)]⟩ "y").2.2.1 2 rfl,
   ((C10_dual_access_amended ⟨[("x", 1)], [("y", 2)]⟩ "z").2.2.2 rfl rfl).1⟩

/-- C10 counterexample: with `output_dir` stored in the backing dict as
`"X"` while the class default is `".build"`, subscript access returns
the stored value but attribute access returns the *class attribute* —
the stored entry does not shadow it. -/
theorem C10_counterexample :
    envGetItem (⟨[("output_dir", "X")], [("output_dir", ".build")]⟩ : PyEnv String)
      "output_dir" = .ok "X" ∧
    envGetAttr (⟨[("output_dir", "X")], [("output_dir", ".build")]⟩ : PyEnv String)
      "output_dir" = .ok ".build" ∧
    (".build" : String) ≠ "X" := by
  exact ⟨rfl, rfl, by decide⟩

/-! ## Claim C9 -/

theorem lookupA_setA_ne {α : Type} (es : List (String × α)) (k key : String)
    (v : α) (h : k ≠ key) : lookupA (setA es k v) key = lookupA es key := by
  induction es with
  | nil => simp [setA, lookupA, h]
  | cons p rest ih =>
    obtain ⟨a, b⟩ := p
    by_cases hak : a = k
    · subst hak
      simp [setA, lookupA, h]
    · simp [setA, lookupA, hak, ih]

theorem envGetAttr_setItem {α : Type} (e : PyEnv α) (k key : String) (v : α)
    (h : k ≠ key) : envGetAttr (envSetItem e k v) key = envGetAttr e key := by
  unfold envGetAttr envSetItem
  rcases hc : lookupA e.classAttrs key with _ | w
  · simp only [hc, lookupA_setA_ne e.items k key v h]
  · simp only [hc]

theorem dump_filepath_setItem (e : PyEnv String) (k : String) (v : String)
    (h : k ≠ "output_dir") : dump_filepath (envSetItem e k v) = dump_filepath e := by
  unfold dump_filepath
  rw [envGetAttr_setItem e k "output_dir" v h]

/-- C9 (amended): the on-disk snapshot path is *not* keyed by the
(board, toolchain-path) variant: whatever arguments `process_args`
processes, `dump_filepath` of the resulting environment equals
`dump_filepath` of the original one — a single
`<output_dir>/environment.pickle` file shared by every variant.  (Only
`build_dir` is per-variant; the counterexample exhibits two variants
with distinct `build_dir` and the same snapshot path.) -/
theorem C9_snapshot_single_file_amended (e : PyEnv String) (models : List String)
    (md5hex : String → String) (args : PyArgs) (r : PyEnv String)
    (h : process_args e models md5hex args = .ok r) :
    dump_filepath r = dump_filepath e := by
  unfold process_args at h
  set e1 := (match pyTruthy args.arduino_dist with
    | some d => envSetItem e "arduino_dist_dir" d
    | none => e) with he1
  have he1dump : dump_filepath e1 = dump_filepath e := by
    rw [he1]
    rcases pyTruthy args.arduino_dist with _ | d
    · rfl
    · exact dump_filepath_setItem e "arduino_dist_dir" d (by decide)
  have hr : ∃ x, r = envSetItem e1 "build_dir" x := by
    rcases hbm : pyTruthy args.board_model with _ | b
    all_goals rw [hbm] at h
    · rcases hod : envGetAttr e1 "default_board_model" with err | bdn
      all_goals rcases hod2 : envGetAttr e1 "output_dir" with err2 | od
      all_goals simp only [hod, hod2] at h
      all_goals simp only [bind, Except.bind, pure, Except.pure] at h
      · exact absurd h (by simp)
      · exact absurd h (by simp)
      · exact absurd h (by simp)
      · exact ⟨_, (Except.ok.inj h).symm⟩
    · by_cases hmem : b ∈ models
      all_goals simp only [hmem, if_true, if_false, reduceIte] at h
      · rcases hod2 : envGetAttr e1 "output_dir" with err2 | od
        all_goals simp only [hod2] at h
        all_goals simp only [bind, Except.bind, pure, Except.pure] at h
        · exact absurd h (by simp)
        · exact ⟨_, (Except.ok.inj h).symm⟩
      · simp only [bind, Except.bind] at h
        exact absurd h (by simp)
  obtain ⟨x, hx⟩ := hr
  rw [hx, dump_filepath_setItem e1 "build_dir" x (by decide), he1dump]

theorem C9_snapshot_single_file_amended_witness :
    dump_filepath (envSetItem freshEnv "build_dir" ".build/uno") =
      dump_filepath freshEnv :=
  C9_snapshot_single_file_amended freshEnv ["uno"] (fun _ => "0123456789abcdef")
    ⟨none, some "uno"⟩ (envSetItem freshEnv "build_dir" ".build/uno") rfl

/-- C9 counterexample: two different (board, toolchain-path) variants —
`uno` with no distribution path and `mega` with one — get *distinct*
build directories but the *same* snapshot file
`.build/environment.pickle`: snapshots for different selections share
one file, contrary to the claim. -/
theorem C9_counterexample :
    (process_args freshEnv ["uno", "mega"] (fun _ => "0123456789abcdef")
        ⟨none, some "uno"⟩ >>= dump_filepath) = .ok ".build/environment.pickle" ∧
    (process_args freshEnv ["uno", "mega"] (fun _ => "0123456789abcdef")
        ⟨some "/opt/arduino", some "mega"⟩ >>= dump_filepath) =
      .ok ".build/environment.pickle" ∧
    (process_args freshEnv ["uno", "mega"] (fun _ => "0123456789abcdef")
        ⟨none, some "uno"⟩ >>= fun e => envGetItem e "build_dir") = .ok ".build/uno" ∧
    (process_args freshEnv ["uno", "mega"] (fun _ => "0123456789abcdef")
        ⟨some "/opt/arduino", some "mega"⟩ >>= fun e => envGetItem e "build_dir") =
      .ok ".build/mega-01234567" ∧
    (".build/uno" : String) ≠ ".build/mega-01234567" := by
  exact ⟨rfl, rfl, rfl, rfl, by decide⟩
